import Mathlib

set_option maxHeartbeats 1000000

/-!
Shallow embedding of the Edge memory allocation core (EdgeMemory.h /
EdgeMemory.cpp): the tracking SystemAllocator, the LinearAllocator and the
PoolAllocator, together with the MemoryStats model and the MemoryTag
taxonomy.

Modelling conventions:
- size_t and uintptr_t are modelled as Nat.  The source subtracts unsigned
  counters only where the verified invariants show the subtrahend does not
  exceed the minuend, so Nat truncated subtraction agrees with 64-bit
  unsigned subtraction at every state the theorems quantify over.
- Addresses are Nat values.  The platform aligned-allocation primitive
  (_aligned_malloc / aligned_alloc) is modelled by passing the base address
  it returns as an explicit parameter; its contract (base is a nonzero
  multiple of the requested alignment) appears as a hypothesis where needed.
- EDGE_ASSERT reports to the diagnostic facility and, at Error level in
  debug builds, traps; it never makes the enclosing function return.  Only
  explicit early returns of the source abort an operation, and the model
  mirrors exactly those.
- MemoryTag values are Nat indices (NoTag = 0 .. Temp = 25, COUNT = 26).
-/

/-- MemoryStats from EdgeMemory.h: six unsigned counters, zero initialized
by the default constructor. -/
structure MemoryStats where
  totalAllocated : Nat
  totalFreed : Nat
  currentUsage : Nat
  peakUsage : Nat
  allocationCount : Nat
  freeCount : Nat
deriving DecidableEq, Repr

/-- Zero statistics, as produced by memset 0 or the default constructor. -/
def MemoryStats.zero : MemoryStats := ⟨0, 0, 0, 0, 0, 0⟩

/-- Index value of MemoryTag COUNT: the enumeration lists NoTag and 25
further tags, so COUNT = 26. -/
def TAG_COUNT : Nat := 26

/-- Guard sentinel AllocationHeader GUARD_VALUE = 0xDEADC0DE. -/
def GUARD_VALUE : Nat := 0xDEADC0DE

/-- Size in bytes of SystemAllocator AllocationHeader on an LP64 or LLP64
64-bit platform: size_t size (8) + size_t alignment (8) + MemoryTag tag
(1, padded to 8) + const char pointer file (8) + int line (4, padded to 8)
+ prev pointer (8) + next pointer (8) + uint32_t guardValue (4, padded to
8) = 64. -/
def HEADER_SIZE : Nat := 64

/-- Memory AlignUp from EdgeMemory.h:
(size + alignment - 1) AND NOT (alignment - 1) over 64-bit words.  Because
the set bits of a mask m and of its complement partition any word x, the
C expression x AND NOT m equals x - (x AND m); that form is used here since
Nat has no finite-width complement. -/
def Memory.AlignUp (v a : Nat) : Nat :=
  (v + (a - 1)) - ((v + (a - 1)) &&& (a - 1))

/-- Statistics update shared by every allocation path of the source:
totalAllocated and currentUsage grow by the size, allocationCount is
incremented, and peakUsage is raised to currentUsage when exceeded. -/
def statsOnAlloc (m : MemoryStats) (size : Nat) : MemoryStats :=
  let cu := m.currentUsage + size
  { totalAllocated := m.totalAllocated + size
    totalFreed := m.totalFreed
    currentUsage := cu
    peakUsage := if m.peakUsage < cu then cu else m.peakUsage
    allocationCount := m.allocationCount + 1
    freeCount := m.freeCount }

/-- Statistics update shared by every deallocation path of the source:
totalFreed grows by the size, currentUsage shrinks by it (unsigned
subtraction), freeCount is incremented. -/
def statsOnFree (m : MemoryStats) (size : Nat) : MemoryStats :=
  { m with
    totalFreed := m.totalFreed + size
    currentUsage := m.currentUsage - size
    freeCount := m.freeCount + 1 }

/-- Contents of a SystemAllocator AllocationHeader.  The prev and next
intrusive links are represented by the position of the record inside the
tracking list of the allocator state; file and line are always written as
nullptr and 0 by the source and are omitted. -/
structure AllocationHeader where
  size : Nat
  alignment : Nat
  tag : Nat
  guardValue : Nat
deriving DecidableEq, Repr

/-- State of a SystemAllocator: global statistics, the per-tag statistics
array (indexed by tag value), the tracking flag, and the intrusive tracking
list in head-to-tail order. -/
structure SystemAllocator where
  m_Stats : MemoryStats
  m_TagStats : Nat → MemoryStats
  m_TrackingEnabled : Bool
  trackList : List AllocationHeader

/-- SystemAllocator constructor: zeroed statistics, empty tracking list;
the tracking flag is EDGE_DEBUG-dependent and passed explicitly. -/
def SystemAllocator.new (tracking : Bool) : SystemAllocator :=
  ⟨MemoryStats.zero, fun _ => MemoryStats.zero, tracking, []⟩

/-- SystemAllocator TrackAllocation: bump global statistics, bump the
per-tag statistics when the tag index is below COUNT, and append the header
at the tail of the intrusive list. -/
def SystemAllocator.TrackAllocation (s : SystemAllocator) (header : AllocationHeader) :
    SystemAllocator :=
  { s with
    m_Stats := statsOnAlloc s.m_Stats header.size
    m_TagStats := fun t =>
      if header.tag < TAG_COUNT ∧ t = header.tag then
        statsOnAlloc (s.m_TagStats t) header.size
      else s.m_TagStats t
    trackList := s.trackList ++ [header] }

/-- SystemAllocator TrackDeallocation: bump global statistics down, bump the
per-tag statistics when the tag index is below COUNT, and unlink the given
header node from the intrusive list. -/
def SystemAllocator.TrackDeallocation (s : SystemAllocator) (header : AllocationHeader) :
    SystemAllocator :=
  { s with
    m_Stats := statsOnFree s.m_Stats header.size
    m_TagStats := fun t =>
      if header.tag < TAG_COUNT ∧ t = header.tag then
        statsOnFree (s.m_TagStats t) header.size
      else s.m_TagStats t
    trackList := s.trackList.erase header }

/-- SystemAllocator Allocate(size, tag, alignment).  The parameter base is
the address returned by the platform aligned-allocation primitive for this
call.  A zero size returns null before anything else happens.  With
tracking enabled the header is written at base and the user pointer is
base + sizeof(AllocationHeader); with tracking disabled the platform block
is returned directly. -/
def SystemAllocator.Allocate (s : SystemAllocator) (size tag alignment base : Nat) :
    SystemAllocator × Option Nat :=
  if size = 0 then (s, none)
  else if s.m_TrackingEnabled then
    (s.TrackAllocation ⟨size, alignment, tag, GUARD_VALUE⟩, some (base + HEADER_SIZE))
  else (s, some base)

/-- SystemAllocator Free, applied to the header contents recovered at
ptr - sizeof(AllocationHeader).  The Bool result records whether the block
was released to the platform.  A guard mismatch aborts before any state is
touched; Free(nullptr) is an early return with no state change and is not
modelled separately. -/
def SystemAllocator.Free (s : SystemAllocator) (header : AllocationHeader) :
    SystemAllocator × Bool :=
  if s.m_TrackingEnabled then
    if header.guardValue ≠ GUARD_VALUE then (s, false)
    else (s.TrackDeallocation header, true)
  else (s, true)

/-- SystemAllocator GetStats: snapshot copy of the global statistics. -/
def SystemAllocator.GetStats (s : SystemAllocator) : MemoryStats :=
  s.m_Stats

/-- SystemAllocator GetTagStats: copy of the per-tag statistics when the
tag index is below COUNT, otherwise a zeroed MemoryStats. -/
def SystemAllocator.GetTagStats (s : SystemAllocator) (tag : Nat) : MemoryStats :=
  if tag < TAG_COUNT then s.m_TagStats tag else MemoryStats.zero

/-- SystemAllocator Reset: the source asserts that no allocation is live,
but the assert only reports; the memsets and the list reset then run
unconditionally. -/
def SystemAllocator.Reset (s : SystemAllocator) : SystemAllocator :=
  { s with
    m_Stats := MemoryStats.zero
    m_TagStats := fun _ => MemoryStats.zero
    trackList := [] }

/-- States reachable from a fresh tracking SystemAllocator through
well-formed calls: any allocations, frees of a currently live block, and
resets. -/
inductive SysReach : SystemAllocator → Prop
  | init : SysReach (SystemAllocator.new true)
  | alloc (s : SystemAllocator) (size tag alignment base : Nat) :
      SysReach s → SysReach (s.Allocate size tag alignment base).1
  | free (s : SystemAllocator) (header : AllocationHeader) :
      SysReach s → header ∈ s.trackList → SysReach (s.Free header).1
  | reset (s : SystemAllocator) : SysReach s → SysReach s.Reset

/-- State of a LinearAllocator: buffer capacity, bump offset and
statistics.  The buffer base address plays no role in any claim about this
strategy and allocation results are reported as byte offsets into the
buffer. -/
structure LinearAllocator where
  m_Size : Nat
  m_Offset : Nat
  m_Stats : MemoryStats
deriving DecidableEq, Repr

/-- LinearAllocator constructor: capacity size, offset zero, zeroed
statistics. -/
def LinearAllocator.new (size : Nat) : LinearAllocator :=
  ⟨size, 0, MemoryStats.zero⟩

/-- LinearAllocator Allocate: zero size returns null; the offset is rounded
up with the alignment mask exactly as in the source; an overflow past
m_Size returns null without mutating state; otherwise the offset advances
and statistics are bumped. -/
def LinearAllocator.Allocate (s : LinearAllocator) (size alignment : Nat) :
    LinearAllocator × Option Nat :=
  if size = 0 then (s, none)
  else
    let alignedOffset := Memory.AlignUp s.m_Offset alignment
    if s.m_Size < alignedOffset + size then (s, none)
    else
      ({ s with
          m_Offset := alignedOffset + size
          m_Stats := statsOnAlloc s.m_Stats size }, some alignedOffset)

/-- LinearAllocator Free: individual frees are ignored. -/
def LinearAllocator.Free (s : LinearAllocator) : LinearAllocator := s

/-- LinearAllocator Reset: offset returns to zero and the current usage is
folded into totalFreed and freeCount. -/
def LinearAllocator.Reset (s : LinearAllocator) : LinearAllocator :=
  { s with
    m_Offset := 0
    m_Stats := { s.m_Stats with
      totalFreed := s.m_Stats.totalFreed + s.m_Stats.currentUsage
      currentUsage := 0
      freeCount := s.m_Stats.freeCount + s.m_Stats.allocationCount } }

/-- States reachable from a fresh LinearAllocator of any capacity through
allocate, free and reset calls. -/
inductive LinReach : LinearAllocator → Prop
  | init (size : Nat) : LinReach (LinearAllocator.new size)
  | alloc (s : LinearAllocator) (size alignment : Nat) :
      LinReach s → LinReach (s.Allocate size alignment).1
  | free (s : LinearAllocator) : LinReach s → LinReach s.Free
  | reset (s : LinearAllocator) : LinReach s → LinReach s.Reset

/-- State of a PoolAllocator.  The field word models, for each address, the
first machine word of the memory stored there (the uintptr_t value the
source reads and writes through reinterpret_cast); only slot start
addresses inside the pool buffer are ever accessed.  m_FreeList holds the
address of the free-list head, 0 standing for nullptr. -/
structure PoolAllocator where
  m_Buffer : Nat
  m_FreeList : Nat
  m_ElementSize : Nat
  m_ElementCount : Nat
  m_AlignedElementSize : Nat
  m_FreeCount : Nat
  word : Nat → Nat
  m_Stats : MemoryStats

/-- Writes performed by the construction and reset loop of the source for
iterations i = 0 .. n-1: the leading word of slot i receives the address of
slot i+1.  Later iterations are applied outermost, matching the sequential
order of the loop. -/
def writeNextLinks (base aes : Nat) : Nat → (Nat → Nat) → (Nat → Nat)
  | 0, w => w
  | n + 1, w =>
    let w1 := writeNextLinks base aes n w
    fun a => if a = base + n * aes then base + (n + 1) * aes else w1 a

/-- Free-list setup shared verbatim by the PoolAllocator constructor and
Reset: the loop links slot i to slot i+1 for i = 0 .. count-2, then the
last slot is null-terminated. -/
def setupFreeList (base aes count : Nat) (w : Nat → Nat) : Nat → Nat :=
  let w1 := writeNextLinks base aes (count - 1) w
  fun a => if a = base + (count - 1) * aes then 0 else w1 a

/-- PoolAllocator constructor.  base is the address the backing buffer was
allocated at; the contents of the fresh buffer before the free-list setup
are unspecified and modelled as zero words. -/
def PoolAllocator.new (elementSize elementCount alignment base : Nat) : PoolAllocator :=
  let aes := Memory.AlignUp elementSize alignment
  { m_Buffer := base
    m_FreeList := base
    m_ElementSize := elementSize
    m_ElementCount := elementCount
    m_AlignedElementSize := aes
    m_FreeCount := elementCount
    word := setupFreeList base aes elementCount (fun _ => 0)
    m_Stats := MemoryStats.zero }

/-- PoolAllocator Allocate(size, tag, alignment).  Oversized requests and
an empty free list return null without mutating state; otherwise the head
of the free list is popped and the statistics are updated using
m_ElementSize.  The tag and the per-call alignment are accepted but unused,
exactly as in the source. -/
def PoolAllocator.Allocate (s : PoolAllocator) (size tag alignment : Nat) :
    PoolAllocator × Option Nat :=
  if s.m_ElementSize < size then (s, none)
  else if s.m_FreeList = 0 then (s, none)
  else
    ({ s with
        m_FreeList := s.word s.m_FreeList
        m_FreeCount := s.m_FreeCount - 1
        m_Stats := statsOnAlloc s.m_Stats s.m_ElementSize }, some s.m_FreeList)

/-- PoolAllocator Free: null is ignored; a pointer outside
[buffer, buffer + alignedElementSize * elementCount) is rejected without
mutating state; otherwise the slot is pushed onto the head of the free
list and statistics are updated using m_ElementSize. -/
def PoolAllocator.Free (s : PoolAllocator) (ptr : Nat) : PoolAllocator :=
  if ptr = 0 then s
  else if ptr < s.m_Buffer ∨ s.m_Buffer + s.m_AlignedElementSize * s.m_ElementCount ≤ ptr then s
  else
    { s with
      word := fun a => if a = ptr then s.m_FreeList else s.word a
      m_FreeList := ptr
      m_FreeCount := s.m_FreeCount + 1
      m_Stats := statsOnFree s.m_Stats s.m_ElementSize }

/-- PoolAllocator Reset: rebuilds the free list with the same loop as the
constructor, restores the head and the free count, and folds the current
usage into totalFreed and freeCount.  No live-allocation check exists in
the source. -/
def PoolAllocator.Reset (s : PoolAllocator) : PoolAllocator :=
  { s with
    word := setupFreeList s.m_Buffer s.m_AlignedElementSize s.m_ElementCount s.word
    m_FreeList := s.m_Buffer
    m_FreeCount := s.m_ElementCount
    m_Stats := { s.m_Stats with
      totalFreed := s.m_Stats.totalFreed + s.m_Stats.currentUsage
      currentUsage := 0
      freeCount := s.m_Stats.freeCount + s.m_Stats.allocationCount } }

/-- States of a PoolAllocator constructed with the given parameters that
are reachable through well-formed calls, together with the list of live
(returned and not yet freed) addresses: successful allocations push their
result, frees target a live address, resets clear the live list. -/
inductive PoolReach (es ec alignment base : Nat) : PoolAllocator → List Nat → Prop
  | init : PoolReach es ec alignment base (PoolAllocator.new es ec alignment base) []
  | alloc (s : PoolAllocator) (live : List Nat) (size tag al p : Nat) :
      PoolReach es ec alignment base s live →
      (s.Allocate size tag al).2 = some p →
      PoolReach es ec alignment base (s.Allocate size tag al).1 (p :: live)
  | free (s : PoolAllocator) (live : List Nat) (p : Nat) :
      PoolReach es ec alignment base s live → p ∈ live →
      PoolReach es ec alignment base (s.Free p) (live.erase p)
  | reset (s : PoolAllocator) (live : List Nat) :
      PoolReach es ec alignment base s live →
      PoolReach es ec alignment base s.Reset []

/-- C2: evaluation of the code at the failing input.  Tracking is enabled
and Allocate is called with size 16 and alignment 128; the platform
primitive honors its contract and returns the 128-aligned block at address
128, yet the user pointer handed back is 128 + sizeof(AllocationHeader) =
192, which is 64 modulo 128 rather than 0: the alignment guarantee of the
specification is broken for power-of-two alignments larger than the header
size. -/
theorem c2_header_breaks_large_alignment :
    128 % 128 = 0 ∧
    ((SystemAllocator.new true).Allocate 16 0 128 128).2 = some 192 ∧
    192 % 128 = 64 := by
  decide

/-- C3 counterexample: the PoolAllocator performs no zero-size check.  On a
fresh pool (elementSize 32, elementCount 4, alignment 16, buffer at 64),
Allocate with size 0 returns the first slot instead of a null result and
bumps the statistics, so the claim fails for the PoolAllocator. -/
theorem c3_cex_pool_zero_size :
    ((PoolAllocator.new 32 4 16 64).Allocate 0 0 16).2 = some 64 ∧
    ((PoolAllocator.new 32 4 16 64).Allocate 0 0 16).1.m_Stats.allocationCount = 1 := by
  decide

/-- C3 amended: allocate with size zero returns null and leaves the state
unchanged for the SystemAllocator and the LinearAllocator; the
PoolAllocator does not special-case zero and, whenever its free list is
nonempty, grants a full slot and bumps the statistics. -/
theorem c3_zero_size_amended :
    (∀ (s : SystemAllocator) (tag alignment base : Nat),
        s.Allocate 0 tag alignment base = (s, none)) ∧
    (∀ (s : LinearAllocator) (alignment : Nat),
        s.Allocate 0 alignment = (s, none)) ∧
    (∀ (s : PoolAllocator) (tag alignment : Nat), s.m_FreeList ≠ 0 →
        (s.Allocate 0 tag alignment).2 = some s.m_FreeList ∧
        (s.Allocate 0 tag alignment).1.m_Stats.allocationCount
          = s.m_Stats.allocationCount + 1) := by
  refine ⟨?_, ?_, ?_⟩
  · intro s tag alignment base
    simp [SystemAllocator.Allocate]
  · intro s alignment
    simp [LinearAllocator.Allocate]
  · intro s tag alignment h
    simp [PoolAllocator.Allocate, h, Nat.not_lt_zero, statsOnAlloc]

/-- C3 witness: the amended pool clause evaluated on a concrete fresh
pool whose free-list head is the buffer start. -/
theorem c3_zero_size_amended_witness :
    ((PoolAllocator.new 32 4 16 64).Allocate 0 0 16).2
      = some (PoolAllocator.new 32 4 16 64).m_FreeList :=
  (c3_zero_size_amended.2.2 (PoolAllocator.new 32 4 16 64) 0 16 (by decide)).1

/-- C4 counterexample: a SystemAllocator with one live allocation
(allocationCount 1, freeCount 0) is reset; the statistics are zeroed, so
the operation mutates the allocator state instead of aborting. -/
theorem c4_cex_reset_mutates :
    (((SystemAllocator.new true).Allocate 16 0 8 0).1.m_Stats.allocationCount = 1 ∧
     ((SystemAllocator.new true).Allocate 16 0 8 0).1.m_Stats.freeCount = 0) ∧
    ((SystemAllocator.new true).Allocate 16 0 8 0).1.Reset.m_Stats ≠
      ((SystemAllocator.new true).Allocate 16 0 8 0).1.m_Stats := by
  decide

/-- C4 amended: reset never aborts.  SystemAllocator Reset reports through
the debug assert when allocations are live but then unconditionally zeroes
all statistics and clears the tracking list; LinearAllocator Reset and
PoolAllocator Reset perform no live-allocation check at all and always
return the allocator to its post-reset state. -/
theorem c4_reset_amended :
    (∀ s : SystemAllocator, s.Reset.m_Stats = MemoryStats.zero ∧ s.Reset.trackList = []) ∧
    (∀ s : LinearAllocator, s.Reset.m_Offset = 0 ∧ s.Reset.m_Stats.currentUsage = 0) ∧
    (∀ s : PoolAllocator, s.Reset.m_FreeList = s.m_Buffer ∧
        s.Reset.m_FreeCount = s.m_ElementCount ∧ s.Reset.m_Stats.currentUsage = 0) :=
  ⟨fun _ => ⟨rfl, rfl⟩, fun _ => ⟨rfl, rfl⟩, fun _ => ⟨rfl, rfl, rfl⟩⟩

/-- C5: with tracking enabled, a Free whose recovered header carries a
guard value different from the sentinel aborts: the block is not released
and the allocator state (statistics, per-tag statistics and tracking list)
is exactly the state before the call. -/
theorem c5_guard_mismatch_aborts_free (s : SystemAllocator) (header : AllocationHeader)
    (ht : s.m_TrackingEnabled = true) (hg : header.guardValue ≠ GUARD_VALUE) :
    s.Free header = (s, false) := by
  simp [SystemAllocator.Free, ht, hg]

/-- C5 witness: a concrete corrupted header (guard 0) freed against a fresh
tracking allocator leaves the allocator untouched and releases nothing. -/
theorem c5_guard_mismatch_aborts_free_witness :
    (SystemAllocator.new true).Free ⟨16, 8, 0, 0⟩ = (SystemAllocator.new true, false) :=
  c5_guard_mismatch_aborts_free (SystemAllocator.new true) ⟨16, 8, 0, 0⟩ rfl (by decide)

/-- C6: whenever the aligned offset plus the requested size exceeds the
buffer capacity, LinearAllocator Allocate returns null and leaves the whole
state (offset and statistics) unchanged; and the concrete scenario on a
size-100 allocator with alignment 4 (no padding at offsets 0 and 60):
allocate 60 succeeds at offset 0, allocate 50 fails leaving the offset at
60, allocate 40 then succeeds at offset 60 filling the buffer. -/
theorem c6_linear_oom_and_scenario :
    (∀ (s : LinearAllocator) (size alignment : Nat),
        s.m_Size < Memory.AlignUp s.m_Offset alignment + size →
        s.Allocate size alignment = (s, none)) ∧
    (((LinearAllocator.new 100).Allocate 60 4).2 = some 0 ∧
     ((LinearAllocator.new 100).Allocate 60 4).1.m_Offset = 60 ∧
     (((LinearAllocator.new 100).Allocate 60 4).1.Allocate 50 4).2 = none ∧
     (((LinearAllocator.new 100).Allocate 60 4).1.Allocate 50 4).1
       = ((LinearAllocator.new 100).Allocate 60 4).1 ∧
     ((((LinearAllocator.new 100).Allocate 60 4).1.Allocate 50 4).1.Allocate 40 4).2
       = some 60 ∧
     ((((LinearAllocator.new 100).Allocate 60 4).1.Allocate 50 4).1.Allocate 40 4).1.m_Offset
       = 100) := by
  constructor
  · intro s size alignment h
    by_cases hz : size = 0
    · subst hz
      simp [LinearAllocator.Allocate]
    · simp [LinearAllocator.Allocate, hz, h]
  · decide

/-- C6 witness: the out-of-memory clause evaluated on a concrete size-10
allocator asked for 20 bytes. -/
theorem c6_linear_oom_witness :
    (LinearAllocator.new 10).Allocate 20 1 = (LinearAllocator.new 10, none) :=
  c6_linear_oom_and_scenario.1 (LinearAllocator.new 10) 20 1 (by decide)

/-- C10: GetTagStats with a tag index at or above MemoryTag COUNT returns a
fully zeroed MemoryStats instead of reading out of bounds; for an in-range
tag it returns a copy of the statistics of that tag. -/
theorem c10_get_tag_stats (s : SystemAllocator) (tag : Nat) :
    (TAG_COUNT ≤ tag → s.GetTagStats tag = MemoryStats.zero) ∧
    (tag < TAG_COUNT → s.GetTagStats tag = s.m_TagStats tag) := by
  constructor
  · intro h
    simp [SystemAllocator.GetTagStats, Nat.not_lt.mpr h]
  · intro h
    simp [SystemAllocator.GetTagStats, h]

/-- C10 witness: evaluation at the out-of-range tag 30 and at the in-range
tag 3 on a fresh allocator. -/
theorem c10_get_tag_stats_witness :
    (SystemAllocator.new false).GetTagStats 30 = MemoryStats.zero ∧
    (SystemAllocator.new false).GetTagStats 3 = (SystemAllocator.new false).m_TagStats 3 :=
  ⟨(c10_get_tag_stats (SystemAllocator.new false) 30).1 (by decide),
   (c10_get_tag_stats (SystemAllocator.new false) 3).2 (by decide)⟩

/-- Predicate: starting from the given head pointer, the stored words spell
out exactly the given list of addresses, terminated by the null value 0. -/
def isChain (w : Nat → Nat) : Nat → List Nat → Prop
  | head, [] => head = 0
  | head, a :: rest => head = a ∧ isChain w (w a) rest

/-- Slot start addresses of a pool buffer: base + i * alignedElementSize
for every slot index i below the element count. -/
def slotList (base aes count : Nat) : List Nat :=
  (List.range count).map (fun i => base + i * aes)

/-- Memory AlignUp never shrinks a positive value, so the aligned element
size of a pool with a positive element size is positive. -/
theorem alignUp_pos (v a : Nat) (h : 0 < v) : 0 < Memory.AlignUp v a := by
  unfold Memory.AlignUp
  have h1 : (v + (a - 1)) &&& (a - 1) ≤ a - 1 := Nat.and_le_right
  omega

/-- Reading back a link written by the construction loop: after the loop
has written slots 0 .. n-1, slot i holds the address of slot i+1. -/
theorem writeNextLinks_read (base aes : Nat) (hpos : 0 < aes) :
    ∀ (n : Nat) (w : Nat → Nat) (i : Nat), i < n →
      writeNextLinks base aes n w (base + i * aes) = base + (i + 1) * aes := by
  intro n
  induction n with
  | zero =>
    intro w i h
    exact absurd h (Nat.not_lt_zero i)
  | succ n ih =>
    intro w i h
    by_cases hi : i = n
    · subst hi
      simp [writeNextLinks]
    · have hlt : i < n := Nat.lt_of_le_of_ne (Nat.le_of_lt_succ h) hi
      have hne : base + i * aes ≠ base + n * aes := by
        intro hEq
        exact hi (Nat.eq_of_mul_eq_mul_right hpos (Nat.add_left_cancel hEq))
      simp only [writeNextLinks, hne, if_false, ite_false]
      exact ih w i hlt

/-- Reading a non-final slot after the shared free-list setup: it links to
the next slot. -/
theorem setupFreeList_read_link (base aes count : Nat) (hpos : 0 < aes)
    (w : Nat → Nat) (i : Nat) (h : i + 1 < count) :
    setupFreeList base aes count w (base + i * aes) = base + (i + 1) * aes := by
  have hne : base + i * aes ≠ base + (count - 1) * aes := by
    intro hEq
    have h2 := Nat.eq_of_mul_eq_mul_right hpos (Nat.add_left_cancel hEq)
    omega
  have hlt : i < count - 1 := by omega
  simp only [setupFreeList, hne, if_false, ite_false]
  exact writeNextLinks_read base aes hpos (count - 1) w i hlt

/-- Reading the final slot after the shared free-list setup: it holds the
null terminator. -/
theorem setupFreeList_read_last (base aes count : Nat) (w : Nat → Nat) :
    setupFreeList base aes count w (base + (count - 1) * aes) = 0 := by
  simp [setupFreeList]

/-- The words written by the shared free-list setup chain through the slot
suffix starting at any index, ending in the null terminator. -/
theorem setupFreeList_chain_aux (base aes count : Nat) (hpos : 0 < aes) (w : Nat → Nat) :
    ∀ (k j : Nat), j + k = count → 0 < k →
      isChain (setupFreeList base aes count w) (base + j * aes)
        ((List.range' j k).map (fun i => base + i * aes)) := by
  intro k
  induction k with
  | zero =>
    intro j h hk
    exact absurd hk (Nat.lt_irrefl 0)
  | succ k ih =>
    intro j h hk
    rw [List.range'_succ]
    refine ⟨rfl, ?_⟩
    cases k with
    | zero =>
      have hj : j = count - 1 := by omega
      simp only [List.range', List.map_nil, isChain]
      rw [hj]
      exact setupFreeList_read_last base aes count w
    | succ m =>
      have hlink : setupFreeList base aes count w (base + j * aes) = base + (j + 1) * aes :=
        setupFreeList_read_link base aes count hpos w j (by omega)
      rw [hlink]
      exact ih (j + 1) (by omega) (Nat.succ_pos m)

/-- The free list built by the shared setup is exactly the full slot list,
headed by the buffer base. -/
theorem setupFreeList_chain (base aes count : Nat) (hpos : 0 < aes) (hc : 0 < count)
    (w : Nat → Nat) :
    isChain (setupFreeList base aes count w) base (slotList base aes count) := by
  have h := setupFreeList_chain_aux base aes count hpos w count 0 (by omega) hc
  simpa [slotList, List.range_eq_range'] using h

/-- Slot addresses are pairwise distinct when the aligned element size is
positive. -/
theorem slotList_nodup (base aes count : Nat) (hpos : 0 < aes) :
    (slotList base aes count).Nodup := by
  refine List.Nodup.map ?_ (List.nodup_range count)
  intro i j hEq
  exact Nat.eq_of_mul_eq_mul_right hpos (Nat.add_left_cancel hEq)

/-- The slot list enumerates one address per slot. -/
theorem slotList_length (base aes count : Nat) : (slotList base aes count).length = count := by
  simp [slotList]

/-- Membership in the slot list is exactly being a slot start address. -/
theorem slotList_mem (base aes count a : Nat) :
    a ∈ slotList base aes count ↔ ∃ i, i < count ∧ a = base + i * aes := by
  simp only [slotList, List.mem_map, List.mem_range]
  constructor
  · rintro ⟨i, hi, rfl⟩
    exact ⟨i, hi, rfl⟩
  · rintro ⟨i, hi, rfl⟩
    exact ⟨i, hi, rfl⟩

/-- A chain is insensitive to word updates outside its members. -/
theorem isChain_congr (w w1 : Nat → Nat) :
    ∀ (fl : List Nat) (head : Nat), isChain w head fl →
      (∀ a ∈ fl, w1 a = w a) → isChain w1 head fl := by
  intro fl
  induction fl with
  | nil =>
    intro head h _
    exact h
  | cons a rest ih =>
    intro head h hw
    obtain ⟨h1, h2⟩ := h
    refine ⟨h1, ?_⟩
    rw [hw a (List.mem_cons_self a rest)]
    exact ih (w a) h2 (fun b hb => hw b (List.mem_cons_of_mem a hb))

/-- Abstraction invariant of a reachable PoolAllocator state with ghost
free list fl and live list: the construction parameters are preserved, the
stored words spell out fl from the free-list head, every tracked address is
a slot start, fl and live together cover the elementCount slots without
duplication, and the counters and statistics are consistent. -/
structure PoolInv (es ec alignment base : Nat) (s : PoolAllocator)
    (fl live : List Nat) : Prop where
  buf_eq : s.m_Buffer = base
  es_eq : s.m_ElementSize = es
  ec_eq : s.m_ElementCount = ec
  aes_eq : s.m_AlignedElementSize = Memory.AlignUp es alignment
  chain : isChain s.word s.m_FreeList fl
  fl_slots : ∀ a ∈ fl, ∃ i, i < ec ∧ a = base + i * Memory.AlignUp es alignment
  live_slots : ∀ a ∈ live, ∃ i, i < ec ∧ a = base + i * Memory.AlignUp es alignment
  nodup : (fl ++ live).Nodup
  count : fl.length + live.length = ec
  fcount : s.m_FreeCount = fl.length
  usage : s.m_Stats.currentUsage = es * live.length
  acct : s.m_Stats.currentUsage + s.m_Stats.totalFreed = s.m_Stats.totalAllocated

/-- Every reachable PoolAllocator state carries a ghost free list
satisfying the abstraction invariant. -/
theorem poolReach_inv (es ec alignment base : Nat)
    (hes : 0 < es) (hb : 0 < base) (hec : 0 < ec) :
    ∀ (s : PoolAllocator) (live : List Nat),
      PoolReach es ec alignment base s live →
      ∃ fl, PoolInv es ec alignment base s fl live := by
  have haes : 0 < Memory.AlignUp es alignment := alignUp_pos es alignment hes
  intro s live h
  induction h with
  | init =>
    refine ⟨slotList base (Memory.AlignUp es alignment) ec, ?_⟩
    refine ⟨rfl, rfl, rfl, rfl, ?_, ?_, ?_, ?_, ?_, ?_, ?_, ?_⟩
    · exact setupFreeList_chain base (Memory.AlignUp es alignment) ec haes hec (fun _ => 0)
    · intro a ha
      exact (slotList_mem base (Memory.AlignUp es alignment) ec a).1 ha
    · intro a ha
      cases ha
    · simpa using slotList_nodup base (Memory.AlignUp es alignment) ec haes
    · simpa using slotList_length base (Memory.AlignUp es alignment) ec
    · exact (slotList_length base (Memory.AlignUp es alignment) ec).symm
    · simp [PoolAllocator.new, MemoryStats.zero]
    · rfl
  | alloc s live size tag al p hreach hsome ih =>
    obtain ⟨fl, inv⟩ := ih
    have h1 : ¬ s.m_ElementSize < size := by
      intro h1
      simp [PoolAllocator.Allocate, h1] at hsome
    have h2 : s.m_FreeList ≠ 0 := by
      intro h2
      simp [PoolAllocator.Allocate, h1, h2] at hsome
    have hp : p = s.m_FreeList := by
      simp [PoolAllocator.Allocate, h1, h2] at hsome
      exact hsome.symm
    have hstate : (s.Allocate size tag al).1 =
        { s with
          m_FreeList := s.word s.m_FreeList
          m_FreeCount := s.m_FreeCount - 1
          m_Stats := statsOnAlloc s.m_Stats s.m_ElementSize } := by
      simp [PoolAllocator.Allocate, h1, h2]
    cases fl with
    | nil =>
      exact absurd inv.chain h2
    | cons a rest =>
      obtain ⟨ha, hrest⟩ := inv.chain
      refine ⟨rest, ?_⟩
      rw [hstate]
      refine ⟨inv.buf_eq, inv.es_eq, inv.ec_eq, inv.aes_eq, ?_, ?_, ?_, ?_, ?_, ?_, ?_, ?_⟩
      · rw [ha]
        exact hrest
      · intro b hb
        exact inv.fl_slots b (List.mem_cons_of_mem a hb)
      · intro b hb
        rcases List.mem_cons.mp hb with hbp | hbl
        · subst hbp
          rw [hp, ha]
          exact inv.fl_slots a (List.mem_cons_self a rest)
        · exact inv.live_slots b hbl
      · have hnd : (a :: (rest ++ live)).Nodup := by
          simpa using inv.nodup
        have hperm : List.Perm (a :: (rest ++ live)) (rest ++ a :: live) :=
          List.perm_middle.symm
        have : (rest ++ a :: live).Nodup := hperm.nodup hnd
        rw [hp, ha]
        exact this
      · have := inv.count
        simp only [List.length_cons] at this ⊢
        omega
      · have := inv.fcount
        simp only [List.length_cons] at this
        show s.m_FreeCount - 1 = rest.length
        omega
      · have := inv.usage
        simp only [statsOnAlloc, List.length_cons, inv.es_eq]
        rw [this, Nat.mul_succ]
      · have := inv.acct
        simp [statsOnAlloc]
        omega
  | free s live p hreach hmem ih =>
    obtain ⟨fl, inv⟩ := ih
    obtain ⟨i, hi, hpi⟩ := inv.live_slots p hmem
    have hge : base ≤ p := by
      rw [hpi]
      exact Nat.le_add_right base _
    have hp0 : p ≠ 0 := by omega
    have hlt : p < s.m_Buffer + s.m_AlignedElementSize * s.m_ElementCount := by
      rw [inv.buf_eq, inv.aes_eq, inv.ec_eq, hpi]
      have hmul : (i + 1) * Memory.AlignUp es alignment ≤ ec * Memory.AlignUp es alignment :=
        Nat.mul_le_mul_right _ hi
      rw [Nat.succ_mul] at hmul
      have hcomm : Memory.AlignUp es alignment * ec = ec * Memory.AlignUp es alignment :=
        Nat.mul_comm _ _
      omega
    have hnr : ¬(p < s.m_Buffer ∨ s.m_Buffer + s.m_AlignedElementSize * s.m_ElementCount ≤ p) := by
      rw [inv.buf_eq]
      rw [inv.buf_eq] at hlt
      omega
    have hstate : s.Free p =
        { s with
          word := fun a => if a = p then s.m_FreeList else s.word a
          m_FreeList := p
          m_FreeCount := s.m_FreeCount + 1
          m_Stats := statsOnFree s.m_Stats s.m_ElementSize } := by
      simp [PoolAllocator.Free, hp0, hnr]
    have hdisj : ∀ a ∈ fl, a ≠ p := by
      intro a haf hap
      subst hap
      exact List.disjoint_of_nodup_append inv.nodup haf hmem
    have hLpos : 0 < live.length := List.length_pos_of_mem hmem
    refine ⟨p :: fl, ?_⟩
    rw [hstate]
    refine ⟨inv.buf_eq, inv.es_eq, inv.ec_eq, inv.aes_eq, ?_, ?_, ?_, ?_, ?_, ?_, ?_, ?_⟩
    · refine ⟨rfl, ?_⟩
      simp only [if_pos rfl]
      refine isChain_congr s.word _ fl s.m_FreeList inv.chain ?_
      intro a haf
      simp [hdisj a haf]
    · intro b hb
      rcases List.mem_cons.mp hb with hbp | hbf
      · subst hbp
        exact ⟨i, hi, hpi⟩
      · exact inv.fl_slots b hbf
    · intro b hb
      exact inv.live_slots b (List.mem_of_mem_erase hb)
    · have hperm1 : List.Perm (fl ++ live) (fl ++ p :: live.erase p) :=
        List.Perm.append_left fl (List.perm_cons_erase hmem)
      have hperm2 : List.Perm (fl ++ p :: live.erase p) (p :: (fl ++ live.erase p)) :=
        List.perm_middle
      have hnd : (p :: (fl ++ live.erase p)).Nodup :=
        (hperm1.trans hperm2).nodup inv.nodup
      simpa using hnd
    · have hcount := inv.count
      have herase : (live.erase p).length = live.length - 1 :=
        List.length_erase_of_mem hmem
      simp only [List.length_cons, herase]
      omega
    · have := inv.fcount
      simp only [List.length_cons]
      omega
    · have husage := inv.usage
      have herase : (live.erase p).length = live.length - 1 :=
        List.length_erase_of_mem hmem
      have hmul : es * live.length = es * (live.length - 1) + es := by
        cases hL : live.length with
        | zero => omega
        | succ m => simp [Nat.mul_succ]
      simp only [statsOnFree, inv.es_eq, herase]
      omega
    · have hacct := inv.acct
      have husage := inv.usage
      have hesle : es ≤ s.m_Stats.currentUsage := by
        rw [husage]
        calc es = es * 1 := (Nat.mul_one es).symm
          _ ≤ es * live.length := Nat.mul_le_mul_left es hLpos
      simp only [statsOnFree, inv.es_eq]
      omega
  | reset s live hreach ih =>
    obtain ⟨fl, inv⟩ := ih
    refine ⟨slotList base (Memory.AlignUp es alignment) ec, ?_⟩
    have hword : s.Reset.word = setupFreeList base (Memory.AlignUp es alignment) ec s.word := by
      simp [PoolAllocator.Reset, inv.buf_eq, inv.aes_eq, inv.ec_eq]
    have hhead : s.Reset.m_FreeList = base := by
      simp [PoolAllocator.Reset, inv.buf_eq]
    refine ⟨?_, ?_, ?_, ?_, ?_, ?_, ?_, ?_, ?_, ?_, ?_, ?_⟩
    · exact inv.buf_eq
    · exact inv.es_eq
    · exact inv.ec_eq
    · exact inv.aes_eq
    · rw [hword, hhead]
      exact setupFreeList_chain base (Memory.AlignUp es alignment) ec haes hec s.word
    · intro a ha
      exact (slotList_mem base (Memory.AlignUp es alignment) ec a).1 ha
    · intro a ha
      cases ha
    · simpa using slotList_nodup base (Memory.AlignUp es alignment) ec haes
    · simpa using slotList_length base (Memory.AlignUp es alignment) ec
    · simp [PoolAllocator.Reset, inv.ec_eq, slotList_length]
    · simp [PoolAllocator.Reset]
    · have := inv.acct
      simp only [PoolAllocator.Reset]
      omega

/-- C7: PoolAllocator Allocate returns null for oversized requests without
mutating state; on reachable states with size within the element size, it
returns null exactly when elementCount allocations are live (free list
exhausted); every successful allocation pops the free-list head and updates
the statistics by elementSize rather than the requested size; and the live
addresses are pairwise distinct, so no two live pointers alias a slot. -/
theorem c7_pool_allocate_contract :
    (∀ (s : PoolAllocator) (size tag alignment : Nat), s.m_ElementSize < size →
        s.Allocate size tag alignment = (s, none)) ∧
    (∀ (es ec alignment base : Nat) (s : PoolAllocator) (live : List Nat),
        0 < es → 0 < base → 0 < ec →
        PoolReach es ec alignment base s live →
        live.Nodup ∧
        (∀ size tag al, size ≤ es →
            ((s.Allocate size tag al).2 = none ↔ live.length = ec)) ∧
        (∀ size tag al, size ≤ es → live.length < ec →
            (s.Allocate size tag al).2 = some s.m_FreeList ∧
            (s.Allocate size tag al).1.m_FreeList = s.word s.m_FreeList ∧
            (s.Allocate size tag al).1.m_FreeCount = s.m_FreeCount - 1 ∧
            (s.Allocate size tag al).1.m_Stats = statsOnAlloc s.m_Stats es)) := by
  constructor
  · intro s size tag alignment h
    simp [PoolAllocator.Allocate, h]
  · intro es ec alignment base s live hes hb hec hreach
    obtain ⟨fl, inv⟩ := poolReach_inv es ec alignment base hes hb hec s live hreach
    refine ⟨inv.nodup.of_append_right, ?_, ?_⟩
    · intro size tag al hsize
      have h1 : ¬ s.m_ElementSize < size := by
        rw [inv.es_eq]
        omega
      constructor
      · intro hnone
        by_cases h2 : s.m_FreeList = 0
        · cases fl with
          | nil =>
            have hc := inv.count
            simp only [List.length_nil] at hc
            omega
          | cons a rest =>
            obtain ⟨ha, -⟩ := inv.chain
            obtain ⟨i, hi, hai⟩ := inv.fl_slots a (List.mem_cons_self a rest)
            have hba : base ≤ a := by
              rw [hai]
              exact Nat.le_add_right base _
            omega
        · simp [PoolAllocator.Allocate, h1, h2] at hnone
      · intro hlen
        have hfl : fl.length = 0 := by
          have := inv.count
          omega
        have hfl0 : fl = [] := List.length_eq_zero.mp hfl
        have h2 : s.m_FreeList = 0 := by
          have hchain := inv.chain
          rw [hfl0] at hchain
          exact hchain
        simp [PoolAllocator.Allocate, h1, h2]
    · intro size tag al hsize hlen
      have h1 : ¬ s.m_ElementSize < size := by
        rw [inv.es_eq]
        omega
      have hfl : fl ≠ [] := by
        intro hfl0
        have := inv.count
        rw [hfl0] at this
        simp only [List.length_nil] at this
        omega
      obtain ⟨a, rest, rfl⟩ := List.exists_cons_of_ne_nil hfl
      obtain ⟨ha, -⟩ := inv.chain
      obtain ⟨i, hi, hai⟩ := inv.fl_slots a (List.mem_cons_self a rest)
      have hba : base ≤ a := by
        rw [hai]
        exact Nat.le_add_right base _
      have h2 : s.m_FreeList ≠ 0 := by omega
      refine ⟨?_, ?_, ?_, ?_⟩ <;>
        simp [PoolAllocator.Allocate, h1, h2, inv.es_eq, Nat.not_lt.mpr hsize]

/-- C7 witness: concrete evaluations on a fresh pool (elementSize 32,
elementCount 4): an oversized request of 33 bytes is rejected with the
state unchanged, and a request of 32 bytes pops the free-list head. -/
theorem c7_pool_allocate_contract_witness :
    (PoolAllocator.new 32 4 16 64).Allocate 33 0 16 = (PoolAllocator.new 32 4 16 64, none) ∧
    ((PoolAllocator.new 32 4 16 64).Allocate 32 0 16).2
      = some (PoolAllocator.new 32 4 16 64).m_FreeList :=
  ⟨c7_pool_allocate_contract.1 (PoolAllocator.new 32 4 16 64) 33 0 16 (by decide),
   ((c7_pool_allocate_contract.2 32 4 16 64 (PoolAllocator.new 32 4 16 64) []
      (by decide) (by decide) (by decide) PoolReach.init).2.2 32 0 16
      (by decide) (by decide)).1⟩

/-- C8: freeing an in-range pointer pushes it onto the head of the free
list, and an immediately following Allocate whose size fits the element
size pops that head: the address just freed is returned (LIFO reuse). -/
theorem c8_pool_free_then_allocate_lifo (s : PoolAllocator) (ptr size tag alignment : Nat)
    (hb : 0 < s.m_Buffer) (h1 : s.m_Buffer ≤ ptr)
    (h2 : ptr < s.m_Buffer + s.m_AlignedElementSize * s.m_ElementCount)
    (h3 : size ≤ s.m_ElementSize) :
    (s.Free ptr).m_FreeList = ptr ∧
    ((s.Free ptr).Allocate size tag alignment).2 = some ptr := by
  have hp0 : ptr ≠ 0 := by omega
  have hnr : ¬(ptr < s.m_Buffer ∨ s.m_Buffer + s.m_AlignedElementSize * s.m_ElementCount ≤ ptr) := by
    omega
  have hfree : s.Free ptr =
      { s with
        word := fun a => if a = ptr then s.m_FreeList else s.word a
        m_FreeList := ptr
        m_FreeCount := s.m_FreeCount + 1
        m_Stats := statsOnFree s.m_Stats s.m_ElementSize } := by
    simp [PoolAllocator.Free, hp0, hnr]
  have hns : ¬ s.m_ElementSize < size := Nat.not_lt.mpr h3
  rw [hfree]
  exact ⟨rfl, by simp [PoolAllocator.Allocate, hns, hp0]⟩

/-- C8 witness: on a fresh pool at buffer 64 with aligned element size 32
and 4 slots, freeing the in-range slot 96 and allocating 32 bytes returns
exactly the address 96. -/
theorem c8_pool_free_then_allocate_lifo_witness :
    (((PoolAllocator.new 32 4 16 64).Free 96).Allocate 32 0 16).2 = some 96 :=
  (c8_pool_free_then_allocate_lifo (PoolAllocator.new 32 4 16 64) 96 32 0 16
    (by decide) (by decide) (by decide) (by decide)).2

/-- C9: for a PoolAllocator whose fields match its construction parameters,
Reset rebuilds the free list identically to construction regardless of the
current word contents: the head is the buffer start, the free count equals
elementCount, every slot word equals the word the constructor produced,
each non-final slot links to the following slot, and the final slot is
null-terminated. -/
theorem c9_reset_rebuilds_construction_free_list (es ec alignment base : Nat)
    (s : PoolAllocator)
    (hbuf : s.m_Buffer = base) (hcnt : s.m_ElementCount = ec)
    (haes : s.m_AlignedElementSize = Memory.AlignUp es alignment)
    (hes : 0 < es) (hec : 0 < ec) :
    s.Reset.m_FreeList = (PoolAllocator.new es ec alignment base).m_FreeList ∧
    s.Reset.m_FreeCount = ec ∧
    (∀ i, i < ec →
        s.Reset.word (base + i * Memory.AlignUp es alignment)
          = (PoolAllocator.new es ec alignment base).word
              (base + i * Memory.AlignUp es alignment)) ∧
    (∀ i, i + 1 < ec →
        s.Reset.word (base + i * Memory.AlignUp es alignment)
          = base + (i + 1) * Memory.AlignUp es alignment) ∧
    s.Reset.word (base + (ec - 1) * Memory.AlignUp es alignment) = 0 := by
  have hpos : 0 < Memory.AlignUp es alignment := alignUp_pos es alignment hes
  have hword : s.Reset.word = setupFreeList base (Memory.AlignUp es alignment) ec s.word := by
    simp [PoolAllocator.Reset, hbuf, hcnt, haes]
  have hnew : (PoolAllocator.new es ec alignment base).word
      = setupFreeList base (Memory.AlignUp es alignment) ec (fun _ => 0) := rfl
  refine ⟨?_, ?_, ?_, ?_, ?_⟩
  · simp [PoolAllocator.Reset, PoolAllocator.new, hbuf]
  · simp [PoolAllocator.Reset, hcnt]
  · intro i hi
    rw [hword, hnew]
    by_cases hlast : i + 1 < ec
    · rw [setupFreeList_read_link base _ ec hpos s.word i hlast,
        setupFreeList_read_link base _ ec hpos (fun _ => 0) i hlast]
    · have hieq : i = ec - 1 := by omega
      rw [hieq, setupFreeList_read_last, setupFreeList_read_last]
  · intro i hi
    rw [hword, setupFreeList_read_link base _ ec hpos s.word i hi]
  · rw [hword, setupFreeList_read_last]

/-- C9 witness: on the concrete pool (elementSize 32, elementCount 4,
buffer at 64), Reset leaves the free count at 4, relinks slot 1 to slot 2
and null-terminates the final slot, matching construction. -/
theorem c9_reset_rebuilds_construction_free_list_witness :
    (PoolAllocator.new 32 4 16 64).Reset.m_FreeCount = 4 ∧
    (PoolAllocator.new 32 4 16 64).Reset.word (64 + 1 * Memory.AlignUp 32 16)
      = 64 + (1 + 1) * Memory.AlignUp 32 16 ∧
    (PoolAllocator.new 32 4 16 64).Reset.word (64 + (4 - 1) * Memory.AlignUp 32 16) = 0 :=
  ⟨(c9_reset_rebuilds_construction_free_list 32 4 16 64 (PoolAllocator.new 32 4 16 64)
      rfl rfl rfl (by decide) (by decide)).2.1,
   (c9_reset_rebuilds_construction_free_list 32 4 16 64 (PoolAllocator.new 32 4 16 64)
      rfl rfl rfl (by decide) (by decide)).2.2.2.1 1 (by decide),
   (c9_reset_rebuilds_construction_free_list 32 4 16 64 (PoolAllocator.new 32 4 16 64)
      rfl rfl rfl (by decide) (by decide)).2.2.2.2⟩

/-- Erasing one occurrence of a member removes exactly its contribution
from the summed block sizes. -/
theorem sum_map_erase (f : AllocationHeader → Nat) (l : List AllocationHeader)
    (h : AllocationHeader) (hm : h ∈ l) :
    (l.map f).sum = f h + ((l.erase h).map f).sum := by
  have hperm : List.Perm l (h :: l.erase h) := List.perm_cons_erase hm
  have hs := (hperm.map f).sum_eq
  simpa using hs

/-- Invariant of reachable SystemAllocator states: currentUsage is the sum
of the live block sizes, the accounting identity holds, and the allocation
count exceeds the free count by the number of live blocks. -/
theorem sysReach_inv :
    ∀ s : SystemAllocator, SysReach s →
      s.m_Stats.currentUsage = (s.trackList.map AllocationHeader.size).sum ∧
      s.m_Stats.currentUsage + s.m_Stats.totalFreed = s.m_Stats.totalAllocated ∧
      s.m_Stats.allocationCount = s.m_Stats.freeCount + s.trackList.length := by
  intro s h
  induction h with
  | init =>
    exact ⟨rfl, rfl, rfl⟩
  | alloc s size tag alignment base hreach ih =>
    obtain ⟨h1, h2, h3⟩ := ih
    by_cases hz : size = 0
    · simpa [SystemAllocator.Allocate, hz] using And.intro h1 (And.intro h2 h3)
    · by_cases ht : s.m_TrackingEnabled
      · have hstate : (s.Allocate size tag alignment base).1
            = s.TrackAllocation ⟨size, alignment, tag, GUARD_VALUE⟩ := by
          simp [SystemAllocator.Allocate, hz, ht]
        rw [hstate]
        refine ⟨?_, ?_, ?_⟩ <;>
          simp [SystemAllocator.TrackAllocation, statsOnAlloc, List.map_append,
            List.sum_append, List.length_append] <;>
          omega
      · have hstate : (s.Allocate size tag alignment base).1 = s := by
          simp [SystemAllocator.Allocate, hz, ht]
        rw [hstate]
        exact ⟨h1, h2, h3⟩
  | free s header hreach hmem ih =>
    obtain ⟨h1, h2, h3⟩ := ih
    by_cases ht : s.m_TrackingEnabled
    · by_cases hg : header.guardValue = GUARD_VALUE
      · have hstate : (s.Free header).1 = s.TrackDeallocation header := by
          simp [SystemAllocator.Free, ht, hg]
        rw [hstate]
        have hsum := sum_map_erase AllocationHeader.size s.trackList header hmem
        have hlen : (s.trackList.erase header).length = s.trackList.length - 1 :=
          List.length_erase_of_mem hmem
        have hlpos : 0 < s.trackList.length := List.length_pos_of_mem hmem
        refine ⟨?_, ?_, ?_⟩ <;>
          simp [SystemAllocator.TrackDeallocation, statsOnFree, hlen] <;>
          omega
      · have hstate : (s.Free header).1 = s := by
          simp [SystemAllocator.Free, ht, hg]
        rw [hstate]
        exact ⟨h1, h2, h3⟩
    · have hstate : (s.Free header).1 = s := by
        simp [SystemAllocator.Free, ht]
      rw [hstate]
      exact ⟨h1, h2, h3⟩
  | reset s hreach ih =>
    exact ⟨rfl, rfl, rfl⟩

/-- Invariant of reachable LinearAllocator states: the accounting identity
between currentUsage, totalFreed and totalAllocated. -/
theorem linReach_inv :
    ∀ s : LinearAllocator, LinReach s →
      s.m_Stats.currentUsage + s.m_Stats.totalFreed = s.m_Stats.totalAllocated := by
  intro s h
  induction h with
  | init size =>
    rfl
  | alloc s size alignment hreach ih =>
    by_cases hz : size = 0
    · simpa [LinearAllocator.Allocate, hz] using ih
    · by_cases hov : s.m_Size < Memory.AlignUp s.m_Offset alignment + size
      · simpa [LinearAllocator.Allocate, hz, hov] using ih
      · have hstate : (s.Allocate size alignment).1
            = { s with
                m_Offset := Memory.AlignUp s.m_Offset alignment + size
                m_Stats := statsOnAlloc s.m_Stats size } := by
          simp [LinearAllocator.Allocate, hz, hov]
        rw [hstate]
        simp only [statsOnAlloc]
        omega
  | free s hreach ih =>
    exact ih
  | reset s hreach ih =>
    simp only [LinearAllocator.Reset]
    omega

/-- C1: for every allocator strategy (SystemAllocator, LinearAllocator,
PoolAllocator) and every sequence of well-formed allocate, free and reset
calls from a freshly constructed allocator, the statistics snapshot
satisfies currentUsage = totalAllocated - totalFreed (with totalFreed never
exceeding totalAllocated) after every call. -/
theorem c1_stats_accounting_invariant :
    (∀ s : SystemAllocator, SysReach s →
        s.m_Stats.totalFreed ≤ s.m_Stats.totalAllocated ∧
        s.m_Stats.currentUsage = s.m_Stats.totalAllocated - s.m_Stats.totalFreed) ∧
    (∀ s : LinearAllocator, LinReach s →
        s.m_Stats.totalFreed ≤ s.m_Stats.totalAllocated ∧
        s.m_Stats.currentUsage = s.m_Stats.totalAllocated - s.m_Stats.totalFreed) ∧
    (∀ (es ec alignment base : Nat) (s : PoolAllocator) (live : List Nat),
        0 < es → 0 < base → 0 < ec →
        PoolReach es ec alignment base s live →
        s.m_Stats.totalFreed ≤ s.m_Stats.totalAllocated ∧
        s.m_Stats.currentUsage = s.m_Stats.totalAllocated - s.m_Stats.totalFreed) := by
  refine ⟨?_, ?_, ?_⟩
  · intro s h
    obtain ⟨-, h2, -⟩ := sysReach_inv s h
    omega
  · intro s h
    have h2 := linReach_inv s h
    omega
  · intro es ec alignment base s live hes hb hec h
    obtain ⟨fl, inv⟩ := poolReach_inv es ec alignment base hes hb hec s live h
    have h2 := inv.acct
    omega

/-- C1 witness: the accounting identity evaluated on concrete reachable
states of each strategy: a tracking SystemAllocator after one 16-byte
allocation, a size-100 LinearAllocator after one 60-byte allocation, and a
fresh 4-slot pool. -/
theorem c1_stats_accounting_invariant_witness :
    ((SystemAllocator.new true).Allocate 16 2 8 0).1.m_Stats.currentUsage
      = ((SystemAllocator.new true).Allocate 16 2 8 0).1.m_Stats.totalAllocated
        - ((SystemAllocator.new true).Allocate 16 2 8 0).1.m_Stats.totalFreed ∧
    ((LinearAllocator.new 100).Allocate 60 4).1.m_Stats.currentUsage
      = ((LinearAllocator.new 100).Allocate 60 4).1.m_Stats.totalAllocated
        - ((LinearAllocator.new 100).Allocate 60 4).1.m_Stats.totalFreed ∧
    (PoolAllocator.new 32 4 16 64).m_Stats.currentUsage
      = (PoolAllocator.new 32 4 16 64).m_Stats.totalAllocated
        - (PoolAllocator.new 32 4 16 64).m_Stats.totalFreed :=
  ⟨(c1_stats_accounting_invariant.1 ((SystemAllocator.new true).Allocate 16 2 8 0).1
      (SysReach.alloc (SystemAllocator.new true) 16 2 8 0 SysReach.init)).2,
   (c1_stats_accounting_invariant.2.1 ((LinearAllocator.new 100).Allocate 60 4).1
      (LinReach.alloc (LinearAllocator.new 100) 60 4 (LinReach.init 100))).2,
   (c1_stats_accounting_invariant.2.2 32 4 16 64 (PoolAllocator.new 32 4 16 64) []
      (by decide) (by decide) (by decide) PoolReach.init).2⟩
